import Mathlib

/-!
Verification development for the raindrop-notion-sync worker.

The development shallowly embeds the synchronization/reconciliation core:

* `api/sync.ts` (the two-pass change-set builder and the upsert decision
  loop), embedded as `passARun`, `passBRun`, `syncCandidates`,
  `syncStep` / `runUpsertLoop` and the full pipeline `syncRun`;
* `api/reconcile.ts` (the nightly set-difference / delete-grace engine),
  embedded as `reconcileRowStep` / `reconcileRun`;
* `lib/notion.ts` (the Destination ledger operations), embedded as pure
  page transformers `createFromRaindrop`, `updateFromRaindrop`,
  `updateCollectionOnlyF`, `markDeleteDetectedF`, `clearDeleteFlagsF`,
  `archivePageF` over a `List NotionPage` database;
* `lib/raindrop.ts` (`fetchRaindropDetail` and the paginated reads),
  embedded as `fetchRaindropDetail` over an abstract HTTP response and
  page slicing over a creation-sorted source list.

ISO timestamp strings are modelled as integer milliseconds (`Int`); the
JavaScript `Date` comparisons in the source are order-isomorphic to the
integer comparisons used here.  `YYYY-MM-DD` date-only truncation is
modelled as floor division by the number of milliseconds in a day.
-/

namespace RaindropNotionSync

/-- A Source item, mirroring `RaindropItem` of `lib/raindrop.ts` after
`normalizeItems`: `created` is required, `lastUpdate` optional. -/
structure RaindropItem where
  id : Nat
  title : String
  link : String
  excerpt : String
  note : String
  tags : List String
  created : Int
  lastUpdate : Option Int
  domain : Option String
  collectionId : Option Nat
  collectionTitle : Option String
deriving Repr, DecidableEq

/-- A Destination page with the properties the worker reads or writes,
mirroring the Notion properties used in `lib/notion.ts`.  `archived` is
the Notion page-level archived state (set by `archivePage`); `status` is
the user-workflow `Status` select. -/
structure NotionPage where
  pageId : Nat
  raindropId : Nat
  title : String
  url : String
  tags : List String
  excerpt : String
  notes : String
  site : String
  collection : String
  createdField : Int
  status : String
  raindropLastUpdate : Option Int
  syncedAt : Option Int
  locked : Bool
  deletedFlag : Bool
  deleteDetectedAt : Option Int
  archived : Bool
deriving Repr, DecidableEq

/-- The projection returned by `getPagesByRaindropIds` (`NotionFound`
in `lib/notion.ts`). -/
structure NotionFound where
  pageId : Nat
  raindropLastUpdate : Option Int
  locked : Bool
deriving Repr, DecidableEq

/-- The projection returned by `listAllNotionRows` (`NotionRow` in
`lib/notion.ts`). -/
structure NotionRow where
  pageId : Nat
  raindropId : Nat
  locked : Bool
  deletedFlag : Bool
  deleteDetectedAt : Option Int
deriving Repr, DecidableEq

/-- `newerThan(a,b)` of `api/sync.ts`: false when `a` is missing, true
when `b` is missing, otherwise strict comparison of the timestamps. -/
def newerThan (a b : Option Int) : Bool :=
  match a with
  | none => false
  | some ta =>
    match b with
    | none => true
    | some tb => ta > tb

/-- `item.lastUpdate || item.created`: the item-side comparison key of
the upsert decision loop and the stored value written by
`createFromRaindrop`/`updateFromRaindrop`. -/
def itemLast (it : RaindropItem) : Int :=
  it.lastUpdate.getD it.created

/-- Milliseconds in one day. -/
def msPerDay : Int := 86400000

/-- `isoDateOnly`: truncation of an instant to its `YYYY-MM-DD` date,
modelled as the day index (floor division by `msPerDay`). -/
def isoDay (t : Int) : Int := t / msPerDay

/-- `toIntInRange` of `api/sync.ts` on an already-parsed query value:
absent (or unparsable) yields the default, otherwise the value clamped
into `[lo, hi]`. -/
def toIntInRange (s : Option Int) (d lo hi : Int) : Int :=
  match s with
  | none => d
  | some n => max lo (min hi n)

/-- The Notion query by `Raindrop ID` (used by `getPagesByRaindropIds`):
first non-archived page carrying the identifier. -/
def dbFind (db : List NotionPage) (id : Nat) : Option NotionPage :=
  db.find? (fun p => !p.archived && p.raindropId == id)

/-- A `notion.pages.update` call addressed by page id. -/
def dbUpdate (db : List NotionPage) (pid : Nat) (f : NotionPage → NotionPage) :
    List NotionPage :=
  db.map (fun p => if p.pageId == pid then f p else p)

/-- A fresh Destination-assigned page id: strictly larger than every
page id already present. -/
def freshPageId (db : List NotionPage) : Nat :=
  (db.map (·.pageId)).foldr max 0 + 1

/-- `item.collection?.title || opts?.collectionTitle || ''` (JavaScript
falsy-chaining on possibly-empty strings). -/
def firstNonEmpty (a b : Option String) : String :=
  match a with
  | some s => if s = "" then (match b with | some t => t | none => "") else s
  | none => match b with | some t => t | none => ""

/-- `createFromRaindrop` of `lib/notion.ts`: the page created for a new
item.  Stored `Raindrop LastUpdate` is `item.lastUpdate || item.created`;
`Status` starts at `New`; checkbox properties start unset. -/
def createFromRaindrop (it : RaindropItem) (collectionTitle : Option String)
    (pid : Nat) (now : Int) : NotionPage :=
  { pageId := pid
    raindropId := it.id
    title := if it.title = "" then "Untitled" else it.title
    url := it.link
    tags := it.tags.take 50
    excerpt := it.excerpt
    notes := it.note
    site := it.domain.getD ""
    collection := firstNonEmpty it.collectionTitle collectionTitle
    createdField := it.created
    status := "New"
    raindropLastUpdate := some (itemLast it)
    syncedAt := some now
    locked := false
    deletedFlag := false
    deleteDetectedAt := none
    archived := false }

/-- `updateFromRaindrop` of `lib/notion.ts`: rewrites the mapped content
fields and bumps `Raindrop LastUpdate` and `Synced At`; `Status`, `Lock`,
the delete-tracking fields and the archived state are not touched. -/
def updateFromRaindrop (p : NotionPage) (it : RaindropItem)
    (collectionTitle : Option String) (now : Int) : NotionPage :=
  { p with
    title := if it.title = "" then "Untitled" else it.title
    url := it.link
    tags := it.tags.take 50
    excerpt := it.excerpt
    notes := it.note
    site := it.domain.getD ""
    collection := firstNonEmpty it.collectionTitle collectionTitle
    createdField := it.created
    raindropLastUpdate := some (itemLast it)
    syncedAt := some now }

/-- `updateCollectionOnly` of `lib/notion.ts`: rewrites only the
`Collection` text and `Synced At`. -/
def updateCollectionOnlyF (title : Option String) (now : Int)
    (p : NotionPage) : NotionPage :=
  { p with collection := (match title with | some t => t | none => "")
           syncedAt := some now }

/-- `markDeleteDetected` of `lib/notion.ts`: sets the deleted checkbox,
records the detection instant and, when `setArchived`, moves `Status`
to the archived-pending select. -/
def markDeleteDetectedF (whenAt now : Int) (setArchived : Bool)
    (p : NotionPage) : NotionPage :=
  { p with deletedFlag := true
           deleteDetectedAt := some whenAt
           syncedAt := some now
           status := if setArchived then "Archived" else p.status }

/-- `clearDeleteFlags` of `lib/notion.ts`. -/
def clearDeleteFlagsF (now : Int) (p : NotionPage) : NotionPage :=
  { p with deletedFlag := false
           deleteDetectedAt := none
           syncedAt := some now }

/-- `archivePage` of `lib/notion.ts`: the Notion page-level archive. -/
def archivePageF (p : NotionPage) : NotionPage :=
  { p with archived := true }

/-- The `NotionFound` projection of a page. -/
def toFound (p : NotionPage) : NotionFound :=
  ⟨p.pageId, p.raindropLastUpdate, p.locked⟩

/-- The `NotionRow` projection of a page. -/
def toNotionRow (p : NotionPage) : NotionRow :=
  ⟨p.pageId, p.raindropId, p.locked, p.deletedFlag, p.deleteDetectedAt⟩

/-- `listAllNotionRows` of `lib/notion.ts`: the database query excludes
archived pages. -/
def listAllNotionRows (db : List NotionPage) : List NotionRow :=
  (db.filter (fun p => !p.archived)).map toNotionRow

/-! ## The upsert decision loop (`api/sync.ts`, steps after the union) -/

/-- The accumulated outcome of the upsert decision loop: the evolving
database and the report lists of `api/sync.ts`. -/
structure SyncAcc where
  db : List NotionPage
  created : Nat
  updated : Nat
  createdIds : List Nat
  updatedIds : List Nat
  toCreatePreview : List Nat
  toUpdatePreview : List Nat
  skippedLocked : List Nat
  alreadyExists : List Nat
deriving Repr, DecidableEq

/-- One iteration of the decision loop of `api/sync.ts`.  `existing` is
the batched lookup `existingMapAll` built once before the loop from the
initial database; `collTitleOf` is the per-item collection-title
resolution (`getCollectionTitleById(...) ?? defaultCollectionTitle`). -/
def syncStep (existing : Nat → Option NotionFound)
    (collTitleOf : RaindropItem → Option String) (dryRun : Bool) (now : Int)
    (acc : SyncAcc) (it : RaindropItem) : SyncAcc :=
  let found := existing it.id
  let collectionTitle := collTitleOf it
  match found with
  | none =>
    if dryRun then
      { acc with toCreatePreview := acc.toCreatePreview ++ [it.id] }
    else
      { acc with
        db := acc.db ++
          [createFromRaindrop it collectionTitle (freshPageId acc.db) now]
        created := acc.created + 1
        createdIds := acc.createdIds ++ [it.id] }
  | some f =>
    if f.locked then
      { acc with
        skippedLocked := acc.skippedLocked ++ [it.id]
        alreadyExists := acc.alreadyExists ++ [it.id] }
    else if newerThan (some (itemLast it)) f.raindropLastUpdate then
      if dryRun then
        { acc with toUpdatePreview := acc.toUpdatePreview ++ [it.id] }
      else
        { acc with
          db := dbUpdate acc.db f.pageId
            (fun p => updateFromRaindrop p it collectionTitle now)
          updated := acc.updated + 1
          updatedIds := acc.updatedIds ++ [it.id] }
    else
      { acc with alreadyExists := acc.alreadyExists ++ [it.id] }

/-- The decision loop over the (already truncated) candidate list.  As
in the source, the existence map is computed once from the initial
database and is not refreshed by the loop's own writes. -/
def runUpsertLoop (cands : List RaindropItem) (db0 : List NotionPage)
    (collTitleOf : RaindropItem → Option String) (dryRun : Bool) (now : Int) :
    SyncAcc :=
  cands.foldl
    (syncStep (fun id => (dbFind db0 id).map toFound) collTitleOf dryRun now)
    ⟨db0, 0, 0, [], [], [], [], [], []⟩

/-! ## The change-set builder (`api/sync.ts`, pass A / pass B / union) -/

/-- Insertion-ordered map semantics of a JavaScript `Map`: `set` updates
an existing key in place, otherwise appends. -/
def mapSet (m : List (Nat × RaindropItem)) (k : Nat) (v : RaindropItem) :
    List (Nat × RaindropItem) :=
  if m.any (fun kv => kv.1 == k) then
    m.map (fun kv => if kv.1 == k then (k, v) else kv)
  else m ++ [(k, v)]

/-- `fetchRecentRaindrops(collection, perPage, page)`: one page of the
source listing sorted by creation time descending. -/
def fetchRecentPage (src : List RaindropItem) (perPage page : Nat) :
    List RaindropItem :=
  (src.drop (page * perPage)).take perPage

/-- Whether an item matches the `lastUpdate:>d` search (date-only
granularity, strict). -/
def matchesLastUpdateAfter (d : Int) (it : RaindropItem) : Bool :=
  match it.lastUpdate with
  | some u => isoDay u > d
  | none => false

/-- Whether an item matches the `created:>d` search (date-only
granularity, strict). -/
def matchesCreatedAfter (d : Int) (it : RaindropItem) : Bool :=
  isoDay it.created > d

/-- One page of `fetchRaindropsBySearch` sorted `-created` (the source
list is already in that order, so filtering preserves it). -/
def fetchSearchPage (src : List RaindropItem) (q : RaindropItem → Bool)
    (perPage page : Nat) : List RaindropItem :=
  ((src.filter q).drop (page * perPage)).take perPage

/-- The inner per-item loop of pass A: accumulates the pass-A map and
the `consecutiveExisting` counter and reports whether the
time-window-and-consecutive-existing stop fired. -/
def passAItemsLoop (since : Int) (chs : Nat) (existing : Nat → Bool) :
    List RaindropItem → List (Nat × RaindropItem) → Nat →
    List (Nat × RaindropItem) × Nat × Bool
  | [], m, ce => (m, ce, false)
  | it :: rest, m, ce =>
    let createdOld := it.created < since
    let ce' := if existing it.id then ce + 1 else 0
    let m' := if !createdOld then mapSet m it.id it else m
    if createdOld && decide (ce' ≥ chs) then (m', ce', true)
    else passAItemsLoop since chs existing rest m' ce'

/-- The result of the pass-A page loop. -/
structure PassAResult where
  passAItems : List (Nat × RaindropItem)
  pagesFetched : Nat
  stopReason : Option String
deriving Repr, DecidableEq

/-- The pass-A page loop with its four stop rules; `remaining` is the
number of loop iterations still allowed by `MAX_PAGES`. -/
def passAGo (src : List RaindropItem) (existing : Nat → Bool) (since : Int)
    (perPageA chs limitQP perPageEnv : Nat) :
    Nat → Nat → List (Nat × RaindropItem) → Nat → Nat → PassAResult
  | 0, _, m, _, pf => ⟨m, pf, none⟩
  | remaining + 1, page, m, ce, pf =>
    let pageItems := fetchRecentPage src perPageA page
    let pf' := pf + 1
    if pageItems.length = 0 then ⟨m, pf', some "no-more-items"⟩
    else
      match passAItemsLoop since chs existing pageItems m ce with
      | (m', ce', stopped) =>
        if stopped then
          ⟨m', pf', some "time-window-and-consecutive-existing"⟩
        else if pageItems.length < perPageA then
          ⟨m', pf', some "short-final-page"⟩
        else if limitQP ≠ 0 ∧ limitQP ≤ perPageEnv then
          ⟨m', pf', some "debug-limit"⟩
        else
          passAGo src existing since perPageA chs limitQP perPageEnv
            remaining (page + 1) m' ce' pf'

/-- Pass A of `api/sync.ts`. -/
def passARun (src : List RaindropItem) (existing : Nat → Bool) (since : Int)
    (perPageA maxPages chs limitQP perPageEnv : Nat) : PassAResult :=
  passAGo src existing since perPageA chs limitQP perPageEnv maxPages 0 [] 0 0

/-- One of the pass-B search loops: pages until an empty page, a short
page, or the page budget is exhausted. -/
def passBGo (fetch : Nat → List RaindropItem) (perPage : Nat) :
    Nat → Nat → List (Nat × RaindropItem) → Nat →
    List (Nat × RaindropItem) × Nat
  | 0, _, m, pf => (m, pf)
  | remaining + 1, page, m, pf =>
    let pageItems := fetch page
    let pf' := pf + 1
    if pageItems.length = 0 then (m, pf')
    else
      let m' := pageItems.foldl (fun acc it => mapSet acc it.id it) m
      if pageItems.length < perPage then (m', pf')
      else passBGo fetch perPage remaining (page + 1) m' pf'

/-- Pass B of `api/sync.ts`: the `lastUpdate:>since` search followed by
the `created:>since` search, unioned into one map. -/
def passBRun (src : List RaindropItem) (sinceDateOnly : Int)
    (perPage maxPages : Nat) : List (Nat × RaindropItem) × Nat :=
  let r1 := passBGo
    (fetchSearchPage src (matchesLastUpdateAfter sinceDateOnly) perPage)
    perPage maxPages 0 [] 0
  passBGo
    (fetchSearchPage src (matchesCreatedAfter sinceDateOnly) perPage)
    perPage maxPages 0 r1.1 r1.2

/-- The union of the two passes followed by the hard-cap truncation
`slice(0, limitQP || candidates.size)`. -/
def unionAndTruncate (passA passB : List (Nat × RaindropItem))
    (limitQP : Nat) : List RaindropItem :=
  let candidates := passB.foldl (fun acc kv => mapSet acc kv.1 kv.2) passA
  (candidates.map Prod.snd).take
    (if limitQP ≠ 0 then limitQP else candidates.length)

/-- The environment knobs of `api/sync.ts` with their defaults. -/
structure SyncEnv where
  lookbackHours : Int := 48
  overlapMinutes : Int := 15
  perPage : Nat := 50
  maxPages : Nat := 10
  consecutiveHitsStop : Nat := 50
deriving Repr, DecidableEq

/-- The full result of one `api/sync.ts` invocation. -/
structure SyncRunResult where
  since : Int
  sinceDateOnly : Int
  limitQP : Nat
  passA : PassAResult
  passB : List (Nat × RaindropItem)
  candidateList : List RaindropItem
  loop : SyncAcc
deriving Repr, DecidableEq

/-- The whole incremental-sync pipeline of `api/sync.ts`: the limit
query parameter is parsed with default 50 and clamped into `[1, 500]`;
the window is `now - (lookbackHours*60 + overlapMinutes) minutes`; the
two passes are unioned, truncated, and fed to the decision loop. -/
def syncRun (src : List RaindropItem) (db0 : List NotionPage)
    (qLimit : Option Int) (dryRun : Bool) (now : Int) (env : SyncEnv)
    (collTitleOf : RaindropItem → Option String) : SyncRunResult :=
  let limitQP := (toIntInRange qLimit 50 1 500).toNat
  let since := now - (env.lookbackHours * 60 + env.overlapMinutes) * 60 * 1000
  let sinceDateOnly := isoDay since
  let perPageA :=
    if limitQP ≠ 0 ∧ limitQP < env.perPage then limitQP else env.perPage
  let existing := fun id => (dbFind db0 id).isSome
  let pa := passARun src existing since perPageA env.maxPages
    env.consecutiveHitsStop limitQP env.perPage
  let pb := passBRun src sinceDateOnly env.perPage env.maxPages
  let candidateList := unionAndTruncate pa.passAItems pb.1 limitQP
  { since := since
    sinceDateOnly := sinceDateOnly
    limitQP := limitQP
    passA := pa
    passB := pb.1
    candidateList := candidateList
    loop := runUpsertLoop candidateList db0 collTitleOf dryRun now }

/-! ## The per-item detail check (`lib/raindrop.ts`) -/

/-- The fields of `data?.item` that `fetchRaindropDetail` reads. -/
structure DetailItem where
  removed : Bool
  collectionId : Option Nat
  lastUpdate : Option Int
deriving Repr, DecidableEq

/-- The result type `RaindropDetail` of `lib/raindrop.ts`; an absent
`removed` reads as `false` under the `!detail.removed` check. -/
structure RaindropDetail where
  rdExists : Bool
  removed : Bool
  collectionId : Option Nat
  lastUpdate : Option Int
deriving Repr, DecidableEq

/-- `res.ok`: HTTP status in `[200, 300)`. -/
def httpOk (status : Nat) : Bool := 200 ≤ status && status < 300

/-- `fetchRaindropDetail` of `lib/raindrop.ts` as a function of the HTTP
status and the optional `data?.item` payload: a 404, any non-ok status,
or an absent item all yield `exists = false`; the function returns
normally in every case rather than raising. -/
def fetchRaindropDetail (status : Nat) (body : Option DetailItem) :
    RaindropDetail :=
  if status == 404 then ⟨false, false, none, none⟩
  else if !httpOk status then ⟨false, false, none, none⟩
  else
    match body with
    | none => ⟨false, false, none, none⟩
    | some it => ⟨true, it.removed, it.collectionId, it.lastUpdate⟩

/-! ## The reconciliation engine (`api/reconcile.ts`) -/

/-- `hoursSince(detectedAt) ≥ graceHours`: a missing timestamp compares
as `Infinity` (always elapsed); otherwise real division by `36e5` makes
the comparison equivalent to `grace * 3600000 ≤ now - t`. -/
def hoursSinceGE (detectedAt : Option Int) (now grace : Int) : Bool :=
  match detectedAt with
  | none => true
  | some t => grace * 3600000 ≤ now - t

/-- One invocation's inputs to the reconciliation engine: the enumerated
Source identifier set, the per-item detail oracle, the collection-title
oracle, and the configuration knobs. -/
structure RecCtx where
  raindropIds : List Nat
  detailOf : Nat → RaindropDetail
  collTitleOf : Nat → Option String
  deleteMode : String
  graceHours : Int
  now : Int
  dryRun : Bool

/-- The accumulated outcome of the reconciliation loop. -/
structure RecAcc where
  db : List NotionPage
  moved : List Nat
  deleteDetected : List Nat
  deleteArchivedNow : List Nat
  skippedLocked : List Nat
  clearedFlags : List Nat
deriving Repr, DecidableEq

/-- One iteration of the per-row loop of `api/reconcile.ts`. -/
def reconcileRowStep (ctx : RecCtx) (acc : RecAcc) (row : NotionRow) :
    RecAcc :=
  if ctx.raindropIds.contains row.raindropId then
    if row.deletedFlag then
      { acc with
        db := if ctx.dryRun then acc.db
              else dbUpdate acc.db row.pageId (clearDeleteFlagsF ctx.now)
        clearedFlags := acc.clearedFlags ++ [row.raindropId] }
    else acc
  else
    let detail := ctx.detailOf row.raindropId
    if detail.rdExists && !detail.removed then
      let newTitle := match detail.collectionId with
        | some cid => ctx.collTitleOf cid
        | none => none
      if !row.locked then
        let acc1 :=
          { acc with
            db := if ctx.dryRun then acc.db
                  else dbUpdate acc.db row.pageId
                    (updateCollectionOnlyF newTitle ctx.now)
            moved := acc.moved ++ [row.raindropId] }
        if row.deletedFlag then
          { acc1 with
            db := if ctx.dryRun then acc1.db
                  else dbUpdate acc1.db row.pageId (clearDeleteFlagsF ctx.now)
            clearedFlags := acc1.clearedFlags ++ [row.raindropId] }
        else acc1
      else
        { acc with skippedLocked := acc.skippedLocked ++ [row.raindropId] }
    else
      if !row.deletedFlag || row.deleteDetectedAt == none then
        { acc with
          db := if ctx.dryRun then acc.db
                else dbUpdate acc.db row.pageId
                  (markDeleteDetectedF ctx.now ctx.now (!row.locked))
          deleteDetected := acc.deleteDetected ++ [row.raindropId] }
      else
        if hoursSinceGE row.deleteDetectedAt ctx.now ctx.graceHours then
          if ctx.deleteMode == "archive" && !row.locked then
            { acc with
              db := if ctx.dryRun then acc.db
                    else dbUpdate acc.db row.pageId archivePageF
              deleteArchivedNow := acc.deleteArchivedNow ++ [row.raindropId] }
          else
            { acc with skippedLocked := acc.skippedLocked ++ [row.raindropId] }
        else
          { acc with deleteDetected := acc.deleteDetected ++ [row.raindropId] }

/-- One reconciliation invocation: the row snapshot is taken from the
initial database (exactly as `listAllNotionRows` runs before the loop)
and the loop folds over it. -/
def reconcileRun (ctx : RecCtx) (db0 : List NotionPage) : RecAcc :=
  (listAllNotionRows db0).foldl (reconcileRowStep ctx)
    ⟨db0, [], [], [], [], []⟩

/-! ## Claim C4: freshness comparison -/

/-- C4.  For a candidate whose Destination row exists unlocked with a
stored last-modified `T0`, the real-run decision step performs an update
iff the item's comparison key (`lastUpdate`, falling back to `created`)
is strictly newer than `T0`; an equal or older key yields the
already-exists skip with the database untouched; an update rewrites the
stored key to the item's key, so the stored field never decreases. -/
theorem upsert_freshness_iff (existing : Nat → Option NotionFound)
    (coll : RaindropItem → Option String) (now : Int) (acc : SyncAcc)
    (it : RaindropItem) (f : NotionFound) (T0 : Int)
    (hf : existing it.id = some f) (hlock : f.locked = false)
    (hT0 : f.raindropLastUpdate = some T0) :
    (T0 < itemLast it →
      syncStep existing coll false now acc it =
        { acc with
          db := dbUpdate acc.db f.pageId
            (fun p => updateFromRaindrop p it (coll it) now)
          updated := acc.updated + 1
          updatedIds := acc.updatedIds ++ [it.id] }) ∧
    (itemLast it ≤ T0 →
      syncStep existing coll false now acc it =
        { acc with alreadyExists := acc.alreadyExists ++ [it.id] } ∧
      (syncStep existing coll false now acc it).db = acc.db) ∧
    (∀ p : NotionPage, p.raindropLastUpdate = some T0 →
      ∃ T1, (updateFromRaindrop p it (coll it) now).raindropLastUpdate =
          some T1 ∧ (T0 < itemLast it → T0 ≤ T1)) := by
  refine ⟨?_, ?_, ?_⟩
  · intro hlt
    simp [syncStep, hf, hlock, hT0, newerThan, hlt]
  · intro hle
    have hnot : ¬ (T0 < itemLast it) := not_lt.mpr hle
    constructor
    · simp [syncStep, hf, hlock, hT0, newerThan, hnot]
    · simp [syncStep, hf, hlock, hT0, newerThan, hnot]
  · intro p _
    exact ⟨itemLast it, by simp [updateFromRaindrop], fun h => le_of_lt h⟩

/-- Witness for `upsert_freshness_iff` at a concrete input. -/
theorem upsert_freshness_iff_witness :
    ((fun _ => some (⟨7, some 100, false⟩ : NotionFound)) (3 : Nat) =
        some ⟨7, some 100, false⟩) ∧
    (syncStep (fun _ => some ⟨7, some 100, false⟩) (fun _ => none) false 0
        ⟨[], 0, 0, [], [], [], [], [], []⟩
        ⟨3, "t", "u", "", "", [], 0, some 200, none, none, none⟩).updatedIds =
      [3] := by
  have h := upsert_freshness_iff
    (fun _ => some (⟨7, some 100, false⟩ : NotionFound)) (fun _ => none) 0
    ⟨[], 0, 0, [], [], [], [], [], []⟩
    ⟨3, "t", "u", "", "", [], 0, some 200, none, none, none⟩
    ⟨7, some 100, false⟩ 100 rfl rfl rfl
  refine ⟨rfl, ?_⟩
  have h1 := h.1 (by decide)
  rw [h1]
  rfl

/-! ## Claim C10: missing stored timestamp classifies as update -/

/-- C10.  The item-side comparison key is total (`lastUpdate` falling
back to `created`), and `newerThan` treats a missing stored timestamp as
strictly older than every defined key, so an existing unlocked row with
no stored last-modified is always classified as update by the real
decision step. -/
theorem missing_stored_timestamp_updates (existing : Nat → Option NotionFound)
    (coll : RaindropItem → Option String) (now : Int) (acc : SyncAcc)
    (it : RaindropItem) (f : NotionFound)
    (hf : existing it.id = some f) (hlock : f.locked = false)
    (hnone : f.raindropLastUpdate = none) :
    itemLast it = it.lastUpdate.getD it.created ∧
    (∀ t : Int, newerThan (some t) none = true) ∧
    (syncStep existing coll false now acc it).updatedIds =
      acc.updatedIds ++ [it.id] ∧
    (syncStep existing coll false now acc it).db =
      dbUpdate acc.db f.pageId
        (fun p => updateFromRaindrop p it (coll it) now) := by
  refine ⟨rfl, fun t => rfl, ?_, ?_⟩
  · simp [syncStep, hf, hlock, hnone, newerThan]
  · simp [syncStep, hf, hlock, hnone, newerThan]

/-- Witness for `missing_stored_timestamp_updates` at a concrete input. -/
theorem missing_stored_timestamp_updates_witness :
    (syncStep (fun _ => some (⟨7, none, false⟩ : NotionFound)) (fun _ => none)
        false 0 ⟨[], 0, 0, [], [], [], [], [], []⟩
        ⟨3, "t", "u", "", "", [], 5, none, none, none, none⟩).updatedIds =
      [3] := by
  have h := missing_stored_timestamp_updates
    (fun _ => some (⟨7, none, false⟩ : NotionFound)) (fun _ => none) 0
    ⟨[], 0, 0, [], [], [], [], [], []⟩
    ⟨3, "t", "u", "", "", [], 5, none, none, none, none⟩
    ⟨7, none, false⟩ rfl rfl rfl
  exact h.2.2.1

/-! ## Claim C7: failed detail lookups read as not-found -/

/-- C7.  Any detail response that is not a successful status carrying an
item — a 404, another non-success status, or an ok status with no item —
produces exactly the not-found result, and a row absent from the Source
enumeration whose detail lookup produced it proceeds into the deletion
flow (here: the first-detection branch for an unflagged row), with no
exceptional outcome: `fetchRaindropDetail` returns normally on every
input by construction. -/
theorem detail_failure_is_not_found (status : Nat) (body : Option DetailItem)
    (h : httpOk status = false ∨ body = none) :
    fetchRaindropDetail status body = ⟨false, false, none, none⟩ ∧
    fetchRaindropDetail status body = fetchRaindropDetail 404 none ∧
    (∀ (ctx : RecCtx) (acc : RecAcc) (row : NotionRow),
      ctx.raindropIds.contains row.raindropId = false →
      ctx.detailOf row.raindropId = fetchRaindropDetail status body →
      row.deletedFlag = false →
      reconcileRowStep ctx acc row =
        { acc with
          db := if ctx.dryRun then acc.db
                else dbUpdate acc.db row.pageId
                  (markDeleteDetectedF ctx.now ctx.now (!row.locked))
          deleteDetected := acc.deleteDetected ++ [row.raindropId] }) := by
  have hval : fetchRaindropDetail status body = ⟨false, false, none, none⟩ := by
    rcases h with h | h
    · by_cases h404 : status == 404
      · simp [fetchRaindropDetail, h404]
      · simp [fetchRaindropDetail, h404, h]
    · subst h
      by_cases h404 : status == 404
      · simp [fetchRaindropDetail, h404]
      · by_cases hok : httpOk status
        · simp [fetchRaindropDetail, h404, hok]
        · simp [fetchRaindropDetail, h404, hok]
  refine ⟨hval, by rw [hval]; rfl, ?_⟩
  intro ctx acc row habs hdet hflag
  have habs' : ¬ (row.raindropId ∈ ctx.raindropIds) := by
    simpa using habs
  simp [reconcileRowStep, habs', hdet, hval, hflag]

/-- Witness for `detail_failure_is_not_found` at a concrete input: a 500
response is classified exactly like a 404. -/
theorem detail_failure_is_not_found_witness :
    fetchRaindropDetail 500 (some ⟨false, some 1, some 0⟩) =
      fetchRaindropDetail 404 none := by
  exact (detail_failure_is_not_found 500 (some ⟨false, some 1, some 0⟩)
    (Or.inl rfl)).2.1

/-! ## Claim C5: the delete grace state machine -/

/-- A reconciliation context in which the Source enumeration is empty
and the detail check confirms absence (archive mode, 24h grace, real
run). -/
def absentCtx (coll : Nat → Option String) (now : Int) : RecCtx :=
  ⟨[], fun _ => ⟨false, false, none, none⟩, coll, "archive", 24, now, false⟩

/-- A reconciliation context in which the given identifier is present in
the Source enumeration (archive mode, 24h grace, real run). -/
def presentCtx (id : Nat) (coll : Nat → Option String) (now : Int) : RecCtx :=
  ⟨[id], fun _ => ⟨false, false, none, none⟩, coll, "archive", 24, now, false⟩

/-- A single-page reconciliation run is one row step. -/
theorem reconcileRun_single (ctx : RecCtx) (q : NotionPage)
    (hq : q.archived = false) :
    reconcileRun ctx [q] =
      reconcileRowStep ctx ⟨[q], [], [], [], [], []⟩ (toNotionRow q) := by
  simp [reconcileRun, listAllNotionRows, hq]

/-- A run in which the item is present and the row carries no delete
flag leaves the database untouched. -/
theorem present_unflagged_fixed (ctx : RecCtx) (q : NotionPage)
    (hq : q.archived = false) (hf : q.deletedFlag = false)
    (hm : q.raindropId ∈ ctx.raindropIds) :
    (reconcileRun ctx [q]).db = [q] := by
  rw [reconcileRun_single ctx q hq]
  simp [reconcileRowStep, toNotionRow, hf, hm]

/-- Iterating present-item runs never changes the database of an
unflagged row. -/
theorem present_runs_fixed (q : NotionPage) (hq : q.archived = false)
    (hf : q.deletedFlag = false) :
    ∀ ctxs : List RecCtx, (∀ c ∈ ctxs, q.raindropId ∈ c.raindropIds) →
      ctxs.foldl (fun db c => (reconcileRun c db).db) [q] = [q] := by
  intro ctxs
  induction ctxs with
  | nil => intro _; rfl
  | cons c cs ih =>
    intro h
    have h1 : (reconcileRun c [q]).db = [q] :=
      present_unflagged_fixed c q hq hf (h c (by simp))
    simpa [h1] using ih (fun c' hc' => h c' (by simp [hc']))

/-- C5.  For an unlocked, unflagged row whose item disappears from the
Source at time `D` (grace 24h, mode archive): the run at `D+1h` flags
the row deleted with detection timestamp `D+1h` but does not archive the
page; a run at `D+25h` archives it; and if the item instead reappears by
`D+5h`, that run clears the flags and the row is never archived by any
later run in which the item stays present. -/
theorem delete_grace_state_machine (D : Int) (page : NotionPage)
    (coll : Nat → Option String) (hlock : page.locked = false)
    (hflag : page.deletedFlag = false) (harch : page.archived = false) :
    ∃ p1,
      (reconcileRun (absentCtx coll (D + 3600000)) [page]).db = [p1] ∧
      (reconcileRun (absentCtx coll (D + 3600000)) [page]).deleteDetected =
        [page.raindropId] ∧
      (reconcileRun (absentCtx coll (D + 3600000)) [page]).deleteArchivedNow =
        [] ∧
      p1.deletedFlag = true ∧ p1.deleteDetectedAt = some (D + 3600000) ∧
      p1.archived = false ∧
      (∃ p2,
        (reconcileRun (absentCtx coll (D + 25 * 3600000)) [p1]).db = [p2] ∧
        (reconcileRun (absentCtx coll (D + 25 * 3600000))
            [p1]).deleteArchivedNow = [page.raindropId] ∧
        p2.archived = true) ∧
      (∃ p3,
        (reconcileRun (presentCtx page.raindropId coll (D + 5 * 3600000))
            [p1]).db = [p3] ∧
        (reconcileRun (presentCtx page.raindropId coll (D + 5 * 3600000))
            [p1]).clearedFlags = [page.raindropId] ∧
        p3.deletedFlag = false ∧ p3.deleteDetectedAt = none ∧
        p3.archived = false ∧
        ∀ ctxs : List RecCtx,
          (∀ c ∈ ctxs, page.raindropId ∈ c.raindropIds) →
          ctxs.foldl (fun db c => (reconcileRun c db).db) [p3] = [p3]) := by
  refine ⟨markDeleteDetectedF (D + 3600000) (D + 3600000) true page,
    ?_, ?_, ?_, rfl, rfl, harch, ?_, ?_⟩
  · rw [reconcileRun_single _ _ harch]
    simp [reconcileRowStep, toNotionRow, absentCtx, hflag, hlock,
      dbUpdate]
  · rw [reconcileRun_single _ _ harch]
    simp [reconcileRowStep, toNotionRow, absentCtx, hflag, hlock]
  · rw [reconcileRun_single _ _ harch]
    simp [reconcileRowStep, toNotionRow, absentCtx, hflag, hlock]
  · refine ⟨archivePageF (markDeleteDetectedF (D + 3600000) (D + 3600000)
      true page), ?_, ?_, rfl⟩
    · rw [reconcileRun_single _ _ (by simpa [markDeleteDetectedF]
        using harch)]
      simp [reconcileRowStep, toNotionRow, absentCtx, markDeleteDetectedF,
        hlock, hoursSinceGE, dbUpdate]
    · rw [reconcileRun_single _ _ (by simpa [markDeleteDetectedF]
        using harch)]
      simp [reconcileRowStep, toNotionRow, absentCtx, markDeleteDetectedF,
        hlock, hoursSinceGE]
  · refine ⟨clearDeleteFlagsF (D + 5 * 3600000)
      (markDeleteDetectedF (D + 3600000) (D + 3600000) true page),
      ?_, ?_, rfl, rfl, harch, ?_⟩
    · rw [reconcileRun_single _ _ (by simpa [markDeleteDetectedF]
        using harch)]
      simp [reconcileRowStep, toNotionRow, presentCtx, markDeleteDetectedF,
        dbUpdate]
    · rw [reconcileRun_single _ _ (by simpa [markDeleteDetectedF]
        using harch)]
      simp [reconcileRowStep, toNotionRow, presentCtx, markDeleteDetectedF]
    · intro ctxs h
      exact present_runs_fixed _ (by simpa [clearDeleteFlagsF,
        markDeleteDetectedF] using harch) rfl ctxs
        (by simpa [clearDeleteFlagsF, markDeleteDetectedF] using h)

/-- Witness for `delete_grace_state_machine` at a concrete row. -/
theorem delete_grace_state_machine_witness :
    ∃ p1,
      (reconcileRun (absentCtx (fun _ => none) (0 + 3600000))
          [⟨1, 9, "t", "u", [], "", "", "", "", 0, "New", none, none,
            false, false, none, false⟩]).db = [p1] ∧
      p1.deletedFlag = true := by
  obtain ⟨p1, h1, _, _, h4, _⟩ := delete_grace_state_machine 0
    ⟨1, 9, "t", "u", [], "", "", "", "", 0, "New", none, none, false,
      false, none, false⟩ (fun _ => none) rfl rfl rfl
  exact ⟨p1, h1, h4⟩

/-! ## Claim C1: lock invariance -/

/-- The fields of a locked page that are asserted unchanged: everything
except the delete-tracking checkbox/timestamp and the sync timestamp. -/
def lockedIntact (p q : NotionPage) : Prop :=
  q.pageId = p.pageId ∧ q.raindropId = p.raindropId ∧ q.locked = p.locked ∧
  q.archived = p.archived ∧ q.status = p.status ∧ q.title = p.title ∧
  q.url = p.url ∧ q.tags = p.tags ∧ q.excerpt = p.excerpt ∧
  q.notes = p.notes ∧ q.site = p.site ∧ q.collection = p.collection ∧
  q.createdField = p.createdField ∧
  q.raindropLastUpdate = p.raindropLastUpdate

theorem lockedIntact_refl (p : NotionPage) : lockedIntact p p := by
  simp [lockedIntact]

theorem lockedIntact_trans {p q r : NotionPage} (h1 : lockedIntact p q)
    (h2 : lockedIntact q r) : lockedIntact p r := by
  obtain ⟨a1, a2, a3, a4, a5, a6, a7, a8, a9, a10, a11, a12, a13, a14⟩ := h1
  obtain ⟨b1, b2, b3, b4, b5, b6, b7, b8, b9, b10, b11, b12, b13, b14⟩ := h2
  exact ⟨b1.trans a1, b2.trans a2, b3.trans a3, b4.trans a4, b5.trans a5,
    b6.trans a6, b7.trans a7, b8.trans a8, b9.trans a9, b10.trans a10,
    b11.trans a11, b12.trans a12, b13.trans a13, b14.trans a14⟩

theorem lockedIntact_clear (now : Int) (q : NotionPage) :
    lockedIntact q (clearDeleteFlagsF now q) := by
  simp [lockedIntact, clearDeleteFlagsF]

theorem lockedIntact_mark (whenAt now : Int) (q : NotionPage) :
    lockedIntact q (markDeleteDetectedF whenAt now false q) := by
  simp [lockedIntact, markDeleteDetectedF]

theorem mem_dbUpdate_untouched {db : List NotionPage} {q : NotionPage}
    {pid : Nat} {f : NotionPage → NotionPage} (hq : q ∈ db)
    (hne : q.pageId ≠ pid) : q ∈ dbUpdate db pid f := by
  refine List.mem_map.mpr ⟨q, hq, ?_⟩
  simp [hne]

theorem mem_dbUpdate_image {db : List NotionPage} {q : NotionPage}
    {pid : Nat} {f : NotionPage → NotionPage} (hq : q ∈ db) :
    q ∈ dbUpdate db pid f ∨ f q ∈ dbUpdate db pid f := by
  by_cases h : q.pageId = pid
  · refine Or.inr (List.mem_map.mpr ⟨q, hq, ?_⟩)
    simp [h]
  · exact Or.inl (mem_dbUpdate_untouched hq h)

set_option maxHeartbeats 1000000 in
/-- Every database transform a reconcile step applies when its row is
locked preserves `lockedIntact` for every page; when its row is
unlocked, the transform does not touch any page with a different page
id. -/
theorem reconcileRowStep_locked_preserve (ctx : RecCtx) (p : NotionPage)
    (row : NotionRow)
    (hrow : row.locked = false → row.pageId ≠ p.pageId) :
    ∀ acc : RecAcc, (∃ q ∈ acc.db, lockedIntact p q) →
      ∃ q ∈ (reconcileRowStep ctx acc row).db, lockedIntact p q := by
  intro acc ⟨q, hq, hint⟩
  have hqpid : q.pageId = p.pageId := hint.1
  by_cases hl : row.locked
  · -- the row is locked: the only possible writes are the two
    -- flag-tracking updates, both `lockedIntact`-preserving
    have hdb3 : (reconcileRowStep ctx acc row).db = acc.db ∨
        (reconcileRowStep ctx acc row).db =
          dbUpdate acc.db row.pageId (clearDeleteFlagsF ctx.now) ∨
        (reconcileRowStep ctx acc row).db =
          dbUpdate acc.db row.pageId
            (markDeleteDetectedF ctx.now ctx.now false) := by
      simp only [reconcileRowStep, hl, Bool.not_true, Bool.and_false]
      repeat' split
      all_goals first
        | contradiction
        | exact Or.inl rfl
        | exact Or.inr (Or.inl rfl)
        | exact Or.inr (Or.inr rfl)
    rcases hdb3 with h | h | h
    · exact ⟨q, h ▸ hq, hint⟩
    · rw [h]
      rcases @mem_dbUpdate_image acc.db q row.pageId
        (clearDeleteFlagsF ctx.now) hq with hm | hm
      · exact ⟨q, hm, hint⟩
      · exact ⟨_, hm, lockedIntact_trans hint (lockedIntact_clear ctx.now q)⟩
    · rw [h]
      rcases @mem_dbUpdate_image acc.db q row.pageId
        (markDeleteDetectedF ctx.now ctx.now false) hq with hm | hm
      · exact ⟨q, hm, hint⟩
      · exact ⟨_, hm,
          lockedIntact_trans hint (lockedIntact_mark ctx.now ctx.now q)⟩
  · -- the row is unlocked: every write targets its page id, which
    -- differs from p's page id
    have hl' : row.locked = false := by simpa using hl
    have hne : q.pageId ≠ row.pageId := by
      rw [hqpid]
      exact fun h => hrow hl' h.symm
    have hshape : (reconcileRowStep ctx acc row).db = acc.db ∨
        (∃ f, (reconcileRowStep ctx acc row).db =
          dbUpdate acc.db row.pageId f) ∨
        (∃ f g, (reconcileRowStep ctx acc row).db =
          dbUpdate (dbUpdate acc.db row.pageId f) row.pageId g) := by
      simp only [reconcileRowStep]
      repeat' split
      all_goals first
        | contradiction
        | exact Or.inl rfl
        | exact Or.inr (Or.inl ⟨_, rfl⟩)
        | exact Or.inr (Or.inr ⟨_, _, rfl⟩)
    rcases hshape with h | ⟨f, h⟩ | ⟨f, g, h⟩
    · exact ⟨q, h ▸ hq, hint⟩
    · rw [h]
      exact ⟨q, mem_dbUpdate_untouched hq hne, hint⟩
    · rw [h]
      exact ⟨q, mem_dbUpdate_untouched (mem_dbUpdate_untouched hq hne) hne,
        hint⟩

instance (p q : NotionPage) : Decidable (lockedIntact p q) := by
  unfold lockedIntact
  infer_instance

/-- Folding reconcile steps preserves the locked-intact witness as long
as no unlocked row shares the locked page's page id. -/
theorem reconcile_fold_locked (ctx : RecCtx) (p : NotionPage) :
    ∀ rows : List NotionRow,
      (∀ r ∈ rows, r.locked = false → r.pageId ≠ p.pageId) →
      ∀ acc : RecAcc, (∃ q ∈ acc.db, lockedIntact p q) →
      ∃ q ∈ (rows.foldl (reconcileRowStep ctx) acc).db, lockedIntact p q := by
  intro rows
  induction rows with
  | nil => exact fun _ acc h => h
  | cons r rs ih =>
    intro hr acc h
    exact ih (fun r' h' => hr r' (List.mem_cons_of_mem r h'))
      (reconcileRowStep ctx acc r)
      (reconcileRowStep_locked_preserve ctx p r
        (hr r (List.mem_cons_self r rs)) acc h)

/-- The snapshot rows of a database with pairwise-distinct page ids
cannot pair an unlocked row with a locked page's page id. -/
theorem listAllNotionRows_locked_sep (db0 : List NotionPage)
    (hnd : (db0.map (·.pageId)).Nodup) (p : NotionPage) (hp : p ∈ db0)
    (hlock : p.locked = true) :
    ∀ r ∈ listAllNotionRows db0, r.locked = false → r.pageId ≠ p.pageId := by
  intro r hr hrl
  obtain ⟨pr, hpr, hpr2⟩ := List.mem_map.mp hr
  have hprdb : pr ∈ db0 := (List.mem_filter.mp hpr).1
  intro heq
  have hpid : pr.pageId = p.pageId := by
    rw [← hpr2] at heq
    exact heq
  have : pr = p := List.inj_on_of_nodup_map hnd hprdb hp hpid
  rw [this] at hpr2
  rw [← hpr2] at hrl
  simp [toNotionRow, hlock] at hrl

/-- The database after one decision-loop step: unchanged, extended by a
fresh created page, or updated at the page id of an unlocked found
row. -/
theorem syncStep_db_shape (e : Nat → Option NotionFound)
    (coll : RaindropItem → Option String) (dryRun : Bool) (now : Int)
    (acc : SyncAcc) (it : RaindropItem) :
    (syncStep e coll dryRun now acc it).db = acc.db ∨
    (syncStep e coll dryRun now acc it).db =
      acc.db ++ [createFromRaindrop it (coll it) (freshPageId acc.db) now] ∨
    (∃ f, e it.id = some f ∧ f.locked = false ∧
      (syncStep e coll dryRun now acc it).db =
        dbUpdate acc.db f.pageId
          (fun p => updateFromRaindrop p it (coll it) now)) := by
  simp only [syncStep]
  cases hf : e it.id with
  | none =>
    cases dryRun with
    | true => exact Or.inl (by simp)
    | false => exact Or.inr (Or.inl (by simp))
  | some f =>
    by_cases hl : f.locked = true
    · exact Or.inl (by simp [hl])
    · have hl2 : f.locked = false := by simpa using hl
      by_cases hn : newerThan (some (itemLast it)) f.raindropLastUpdate = true
      · cases dryRun with
        | true => exact Or.inl (by simp [hl2, hn])
        | false => exact Or.inr (Or.inr ⟨f, rfl, hl2, by simp [hl2, hn]⟩)
      · exact Or.inl (by simp [hl2, hn])

/-- The skipped-locked report after one decision-loop step: unchanged or
extended by the candidate's id. -/
theorem syncStep_skipped_shape (e : Nat → Option NotionFound)
    (coll : RaindropItem → Option String) (dryRun : Bool) (now : Int)
    (acc : SyncAcc) (it : RaindropItem) :
    (syncStep e coll dryRun now acc it).skippedLocked =
      acc.skippedLocked ∨
    (syncStep e coll dryRun now acc it).skippedLocked =
      acc.skippedLocked ++ [it.id] := by
  simp only [syncStep]
  cases hf : e it.id with
  | none =>
    cases dryRun with
    | true => exact Or.inl (by simp)
    | false => exact Or.inl (by simp)
  | some f =>
    by_cases hl : f.locked = true
    · exact Or.inr (by simp [hl])
    · have hl2 : f.locked = false := by simpa using hl
      by_cases hn : newerThan (some (itemLast it)) f.raindropLastUpdate = true
      · cases dryRun with
        | true => exact Or.inl (by simp [hl2, hn])
        | false => exact Or.inl (by simp [hl2, hn])
      · exact Or.inl (by simp [hl2, hn])

/-- A single decision-loop step never touches a locked page of the
initial database (it can only append fresh pages or update pages whose
lookup reported them unlocked). -/
theorem syncStep_locked_mem (db0 : List NotionPage)
    (hnd : (db0.map (·.pageId)).Nodup) (p : NotionPage) (hp : p ∈ db0)
    (hlock : p.locked = true) (coll : RaindropItem → Option String)
    (dryRun : Bool) (now : Int) (acc : SyncAcc) (it : RaindropItem)
    (hmem : p ∈ acc.db) :
    p ∈ (syncStep (fun id => (dbFind db0 id).map toFound) coll dryRun now
      acc it).db := by
  rcases syncStep_db_shape (fun id => (dbFind db0 id).map toFound) coll
    dryRun now acc it with h | h | ⟨f, hf, hfl, h⟩
  · rw [h]; exact hmem
  · rw [h]; exact List.mem_append_left _ hmem
  · rw [h]
    obtain ⟨q0, hq0find, hq0f⟩ := Option.map_eq_some'.mp hf
    have hq0 : q0 ∈ db0 := List.mem_of_find?_eq_some hq0find
    have hfpid : f.pageId = q0.pageId := by rw [← hq0f]; rfl
    have hne : p.pageId ≠ f.pageId := by
      rw [hfpid]
      intro hpe
      have : p = q0 := List.inj_on_of_nodup_map hnd hp hq0 hpe
      rw [← hq0f] at hfl
      rw [this] at hlock
      simp [toFound, hlock] at hfl
    exact mem_dbUpdate_untouched hmem hne

/-- Skipped-locked recordings only accumulate across decision-loop
steps. -/
theorem syncStep_skipped_mono (e : Nat → Option NotionFound)
    (coll : RaindropItem → Option String) (dryRun : Bool) (now : Int)
    (acc : SyncAcc) (it : RaindropItem) (x : Nat)
    (hx : x ∈ acc.skippedLocked) :
    x ∈ (syncStep e coll dryRun now acc it).skippedLocked := by
  rcases syncStep_skipped_shape e coll dryRun now acc it with h | h
  · rw [h]; exact hx
  · rw [h]; exact List.mem_append_left _ hx

theorem sync_fold_skipped_mono (e : Nat → Option NotionFound)
    (coll : RaindropItem → Option String) (dryRun : Bool) (now : Int) :
    ∀ (l : List RaindropItem) (acc : SyncAcc) (x : Nat),
      x ∈ acc.skippedLocked →
      x ∈ (l.foldl (syncStep e coll dryRun now) acc).skippedLocked := by
  intro l
  induction l with
  | nil => exact fun acc x hx => hx
  | cons a l ih =>
    intro acc x hx
    exact ih _ x (syncStep_skipped_mono e coll dryRun now acc a x hx)

/-- A candidate whose lookup reports a locked row is recorded as
skipped-locked by the decision loop. -/
theorem sync_fold_skipped_rec (e : Nat → Option NotionFound)
    (coll : RaindropItem → Option String) (dryRun : Bool) (now : Int) :
    ∀ (l : List RaindropItem) (acc : SyncAcc) (it : RaindropItem),
      it ∈ l → ∀ f, e it.id = some f → f.locked = true →
      it.id ∈ (l.foldl (syncStep e coll dryRun now) acc).skippedLocked := by
  intro l
  induction l with
  | nil => intro acc it h; exact absurd h (List.not_mem_nil it)
  | cons a l ih =>
    intro acc it hmem f hf hfl
    rcases List.mem_cons.mp hmem with heq | hmem'
    · subst heq
      rw [List.foldl_cons]
      apply sync_fold_skipped_mono
      simp [syncStep, hf, hfl]
    · exact ih _ it hmem' f hf hfl

/-- C1 is false as stated: the reconciliation run clears the delete
flags of a locked row whose item is present in the Source (there is no
lock check in the reappeared branch), so a locked row's `deletedFlag`
does change. -/
theorem locked_row_flags_cleared_cex :
    (⟨1, 9, "t", "u", [], "", "", "", "", 0, "New", none, none, true,
      true, some 0, false⟩ : NotionPage).locked = true ∧
    (⟨1, 9, "t", "u", [], "", "", "", "", 0, "New", none, none, true,
      true, some 0, false⟩ : NotionPage).deletedFlag = true ∧
    ((reconcileRun (presentCtx 9 (fun _ => none) 100)
        [⟨1, 9, "t", "u", [], "", "", "", "", 0, "New", none, none, true,
          true, some 0, false⟩]).db.map (·.deletedFlag)) = [false] := by
  refine ⟨rfl, rfl, ?_⟩
  rfl

/-- C1 (amended).  For every locked Destination page (page ids pairwise
distinct): the incremental sync never touches the page — it survives the
whole run unchanged — and any candidate whose lookup reports a locked
row is recorded as skipped-locked; the reconciliation run preserves the
page's content fields, workflow status, lock, stored last-modified and
archived state (in particular a locked row is never archived and never
has its collection rewritten), though it may still change the
delete-tracking fields and the sync timestamp. -/
theorem locked_row_invariance (db0 : List NotionPage)
    (hnd : (db0.map (·.pageId)).Nodup) (cands : List RaindropItem)
    (coll : RaindropItem → Option String) (dryRun : Bool) (now : Int)
    (ctx : RecCtx) (p : NotionPage) (hp : p ∈ db0)
    (hlock : p.locked = true) :
    p ∈ (runUpsertLoop cands db0 coll dryRun now).db ∧
    (∀ it ∈ cands, ∀ f, (dbFind db0 it.id).map toFound = some f →
      f.locked = true →
      it.id ∈ (runUpsertLoop cands db0 coll dryRun now).skippedLocked) ∧
    (∃ q ∈ (reconcileRun ctx db0).db, lockedIntact p q) := by
  refine ⟨?_, ?_, ?_⟩
  · unfold runUpsertLoop
    have main : ∀ (l : List RaindropItem) (acc : SyncAcc), p ∈ acc.db →
        p ∈ (l.foldl (syncStep (fun id => (dbFind db0 id).map toFound)
          coll dryRun now) acc).db := by
      intro l
      induction l with
      | nil => exact fun acc h => h
      | cons a l ih =>
        intro acc h
        exact ih _ (syncStep_locked_mem db0 hnd p hp hlock coll dryRun now
          acc a h)
    exact main cands _ hp
  · intro it hmem f hf hfl
    exact sync_fold_skipped_rec _ coll dryRun now cands _ it hmem f hf hfl
  · exact reconcile_fold_locked ctx p (listAllNotionRows db0)
      (listAllNotionRows_locked_sep db0 hnd p hp hlock) _
      ⟨p, hp, lockedIntact_refl p⟩

/-- Witness for `locked_row_invariance` at a concrete locked page. -/
theorem locked_row_invariance_witness :
    ((([⟨2, 5, "a", "u", [], "", "", "", "", 0, "New", none, none, true,
        false, none, false⟩] : List NotionPage).map (·.pageId)).Nodup) ∧
    (⟨2, 5, "a", "u", [], "", "", "", "", 0, "New", none, none, true,
      false, none, false⟩ : NotionPage) ∈
      (runUpsertLoop [] [⟨2, 5, "a", "u", [], "", "", "", "", 0, "New",
        none, none, true, false, none, false⟩] (fun _ => none) false 0).db := by
  have h := locked_row_invariance
    [⟨2, 5, "a", "u", [], "", "", "", "", 0, "New", none, none, true,
      false, none, false⟩] (by decide) [] (fun _ => none) false 0
    (absentCtx (fun _ => none) 0)
    ⟨2, 5, "a", "u", [], "", "", "", "", 0, "New", none, none, true,
      false, none, false⟩ (by decide) rfl
  exact ⟨by decide, h.1⟩

/-! ## Claim C6: moved-versus-deleted disambiguation -/

/-- Two page writes addressed to the same page id compose when the
first preserves the page id. -/
theorem dbUpdate_dbUpdate (db : List NotionPage) (pid : Nat)
    (f g : NotionPage → NotionPage) (hf : ∀ q, (f q).pageId = q.pageId) :
    dbUpdate (dbUpdate db pid f) pid g =
      dbUpdate db pid (fun q => g (f q)) := by
  simp only [dbUpdate, List.map_map]
  congr 1
  funext q
  by_cases h : q.pageId == pid
  · simp only [Function.comp, h, if_pos]
    simp [hf q, (by simpa using h : q.pageId = pid)]
  · simp [Function.comp, h]

/-- The net page transform of the moved branch: the collection rewrite,
followed by the delete-flag clearing when the row was flagged. -/
def movedTransform (ctx : RecCtx) (row : NotionRow) :
    NotionPage → NotionPage :=
  let newTitle := match (ctx.detailOf row.raindropId).collectionId with
    | some cid => ctx.collTitleOf cid
    | none => none
  fun q =>
    if row.deletedFlag then
      clearDeleteFlagsF ctx.now (updateCollectionOnlyF newTitle ctx.now q)
    else updateCollectionOnlyF newTitle ctx.now q

/-- C6 is false as stated: when a previously delete-flagged unlocked
row turns out to have moved, the reconcile run also clears its delete
flags, so a field other than the collection and the sync timestamp
changes (`deletedFlag` flips from true to false). -/
theorem moved_row_clears_flags_cex :
    (⟨1, 9, "t", "u", [], "", "", "", "old", 0, "New", none, none, false,
      true, some 0, false⟩ : NotionPage).deletedFlag = true ∧
    ((reconcileRun
        ⟨[], fun _ => ⟨true, false, some 2, none⟩, fun _ => some "Other",
          "archive", 24, 100, false⟩
        [⟨1, 9, "t", "u", [], "", "", "", "old", 0, "New", none, none,
          false, true, some 0, false⟩]).db.map (·.deletedFlag)) =
      [false] ∧
    (reconcileRun
        ⟨[], fun _ => ⟨true, false, some 2, none⟩, fun _ => some "Other",
          "archive", 24, 100, false⟩
        [⟨1, 9, "t", "u", [], "", "", "", "old", 0, "New", none, none,
          false, true, some 0, false⟩]).moved = [9] := by
  refine ⟨rfl, ?_, ?_⟩ <;> rfl

/-- C6 (amended).  For a row absent from the Source enumeration whose
detail check reports it existing and not removed: a locked row is only
recorded skipped-locked with nothing written; an unlocked row is
classified moved and its page receives exactly the collection rewrite
plus the sync timestamp — every other field is unchanged, except that
previously-set delete flags are cleared; the delete flags are never set
and the detection timestamp is never written. -/
theorem moved_row_updates_collection_only (ctx : RecCtx) (acc : RecAcc)
    (row : NotionRow) (habs : row.raindropId ∉ ctx.raindropIds)
    (hex : (ctx.detailOf row.raindropId).rdExists = true)
    (hrem : (ctx.detailOf row.raindropId).removed = false)
    (hdry : ctx.dryRun = false) :
    (row.locked = true → reconcileRowStep ctx acc row =
      { acc with skippedLocked := acc.skippedLocked ++ [row.raindropId] }) ∧
    (row.locked = false →
      (reconcileRowStep ctx acc row).db =
        dbUpdate acc.db row.pageId (movedTransform ctx row) ∧
      (reconcileRowStep ctx acc row).moved = acc.moved ++ [row.raindropId] ∧
      (reconcileRowStep ctx acc row).deleteDetected = acc.deleteDetected ∧
      (reconcileRowStep ctx acc row).deleteArchivedNow =
        acc.deleteArchivedNow ∧
      ∀ q : NotionPage,
        (movedTransform ctx row q).syncedAt = some ctx.now ∧
        (movedTransform ctx row q).pageId = q.pageId ∧
        (movedTransform ctx row q).raindropId = q.raindropId ∧
        (movedTransform ctx row q).title = q.title ∧
        (movedTransform ctx row q).url = q.url ∧
        (movedTransform ctx row q).tags = q.tags ∧
        (movedTransform ctx row q).excerpt = q.excerpt ∧
        (movedTransform ctx row q).notes = q.notes ∧
        (movedTransform ctx row q).site = q.site ∧
        (movedTransform ctx row q).createdField = q.createdField ∧
        (movedTransform ctx row q).status = q.status ∧
        (movedTransform ctx row q).locked = q.locked ∧
        (movedTransform ctx row q).archived = q.archived ∧
        (movedTransform ctx row q).raindropLastUpdate =
          q.raindropLastUpdate ∧
        ((movedTransform ctx row q).deletedFlag = true →
          q.deletedFlag = true) ∧
        (row.deletedFlag = false →
          (movedTransform ctx row q).deletedFlag = q.deletedFlag ∧
          (movedTransform ctx row q).deleteDetectedAt =
            q.deleteDetectedAt) ∧
        (row.deletedFlag = true →
          (movedTransform ctx row q).deletedFlag = false ∧
          (movedTransform ctx row q).deleteDetectedAt = none)) := by
  constructor
  · intro hl
    simp [reconcileRowStep, habs, hex, hrem, hl]
  · intro hl
    refine ⟨?_, ?_, ?_, ?_, ?_⟩
    · cases hfl : row.deletedFlag with
      | true =>
        have hcomp := dbUpdate_dbUpdate acc.db row.pageId
          (updateCollectionOnlyF
            (match (ctx.detailOf row.raindropId).collectionId with
              | some cid => ctx.collTitleOf cid
              | none => none) ctx.now)
          (clearDeleteFlagsF ctx.now) (fun q => rfl)
        simp [reconcileRowStep, habs, hex, hrem, hl, hdry, hfl, hcomp,
          movedTransform]
      | false =>
        simp [reconcileRowStep, habs, hex, hrem, hl, hdry, hfl,
          movedTransform]
    · cases hfl : row.deletedFlag <;>
        simp [reconcileRowStep, habs, hex, hrem, hl, hdry, hfl]
    · cases hfl : row.deletedFlag <;>
        simp [reconcileRowStep, habs, hex, hrem, hl, hdry, hfl]
    · cases hfl : row.deletedFlag <;>
        simp [reconcileRowStep, habs, hex, hrem, hl, hdry, hfl]
    · intro q
      cases hfl : row.deletedFlag <;>
        simp [movedTransform, hfl, clearDeleteFlagsF, updateCollectionOnlyF]

/-- Witness for `moved_row_updates_collection_only` at a concrete
input. -/
theorem moved_row_updates_collection_only_witness :
    (reconcileRowStep
        ⟨[], fun _ => ⟨true, false, some 2, none⟩, fun _ => some "Other",
          "archive", 24, 100, false⟩
        ⟨[], [], [], [], [], []⟩ ⟨1, 9, false, false, none⟩).moved =
      [9] := by
  have h := moved_row_updates_collection_only
    ⟨[], fun _ => ⟨true, false, some 2, none⟩, fun _ => some "Other",
      "archive", 24, 100, false⟩
    ⟨[], [], [], [], [], []⟩ ⟨1, 9, false, false, none⟩
    (by simp) rfl rfl rfl
  simpa using (h.2 rfl).2.1

/-! ## Claim C8: dry-run parity -/

/-- A dry-run decision step never writes the database. -/
theorem syncStep_dry_db (e : Nat → Option NotionFound)
    (coll : RaindropItem → Option String) (now : Int) (acc : SyncAcc)
    (it : RaindropItem) :
    (syncStep e coll true now acc it).db = acc.db := by
  simp only [syncStep]
  cases h : e it.id with
  | none => rfl
  | some f =>
    by_cases hl : f.locked = true
    · simp [hl]
    · have hl2 : f.locked = false := by simpa using hl
      by_cases hn : newerThan (some (itemLast it)) f.raindropLastUpdate = true
      · simp [hl2, hn]
      · simp [hl2, hn]

/-- A dry decision step and a real decision step starting from
accumulators that agree on all classification lists still agree: the
dry preview lists evolve exactly like the real write lists. -/
theorem syncStep_parity (e : Nat → Option NotionFound)
    (coll : RaindropItem → Option String) (now : Int) (it : RaindropItem)
    (ad ar : SyncAcc) (h1 : ad.toCreatePreview = ar.createdIds)
    (h2 : ad.toUpdatePreview = ar.updatedIds)
    (h3 : ad.skippedLocked = ar.skippedLocked)
    (h4 : ad.alreadyExists = ar.alreadyExists) :
    (syncStep e coll true now ad it).toCreatePreview =
      (syncStep e coll false now ar it).createdIds ∧
    (syncStep e coll true now ad it).toUpdatePreview =
      (syncStep e coll false now ar it).updatedIds ∧
    (syncStep e coll true now ad it).skippedLocked =
      (syncStep e coll false now ar it).skippedLocked ∧
    (syncStep e coll true now ad it).alreadyExists =
      (syncStep e coll false now ar it).alreadyExists := by
  simp only [syncStep]
  cases h : e it.id with
  | none => simp [h1, h2, h3, h4]
  | some f =>
    by_cases hl : f.locked = true
    · simp [hl, h1, h2, h3, h4]
    · have hl2 : f.locked = false := by simpa using hl
      by_cases hn : newerThan (some (itemLast it)) f.raindropLastUpdate = true
      · simp [hl2, hn, h1, h2, h3, h4]
      · simp [hl2, hn, h1, h2, h3, h4]

theorem sync_fold_parity (e : Nat → Option NotionFound)
    (coll : RaindropItem → Option String) (now : Int) :
    ∀ (l : List RaindropItem) (ad ar : SyncAcc),
      ad.toCreatePreview = ar.createdIds →
      ad.toUpdatePreview = ar.updatedIds →
      ad.skippedLocked = ar.skippedLocked →
      ad.alreadyExists = ar.alreadyExists →
      (l.foldl (syncStep e coll true now) ad).toCreatePreview =
        (l.foldl (syncStep e coll false now) ar).createdIds ∧
      (l.foldl (syncStep e coll true now) ad).toUpdatePreview =
        (l.foldl (syncStep e coll false now) ar).updatedIds ∧
      (l.foldl (syncStep e coll true now) ad).skippedLocked =
        (l.foldl (syncStep e coll false now) ar).skippedLocked ∧
      (l.foldl (syncStep e coll true now) ad).alreadyExists =
        (l.foldl (syncStep e coll false now) ar).alreadyExists ∧
      (l.foldl (syncStep e coll true now) ad).db = ad.db := by
  intro l
  induction l with
  | nil => exact fun ad ar h1 h2 h3 h4 => ⟨h1, h2, h3, h4, rfl⟩
  | cons a l ih =>
    intro ad ar h1 h2 h3 h4
    obtain ⟨g1, g2, g3, g4⟩ := syncStep_parity e coll now a ad ar h1 h2 h3 h4
    obtain ⟨k1, k2, k3, k4, k5⟩ :=
      ih (syncStep e coll true now ad a) (syncStep e coll false now ar a)
        g1 g2 g3 g4
    exact ⟨k1, k2, k3, k4, k5.trans (syncStep_dry_db e coll now ad a)⟩

/-- A dry-run reconcile step never writes the database. -/
theorem reconcileRowStep_dry_db (ctx : RecCtx) (hdry : ctx.dryRun = true)
    (acc : RecAcc) (row : NotionRow) :
    (reconcileRowStep ctx acc row).db = acc.db := by
  simp only [reconcileRowStep, hdry]
  repeat' split
  all_goals simp_all

/-- A dry reconcile step and a real reconcile step agree on every
classification list when started from agreeing accumulators. -/
theorem reconcileRowStep_parity (ctx : RecCtx) (row : NotionRow)
    (ad ar : RecAcc) (h1 : ad.moved = ar.moved)
    (h2 : ad.deleteDetected = ar.deleteDetected)
    (h3 : ad.deleteArchivedNow = ar.deleteArchivedNow)
    (h4 : ad.skippedLocked = ar.skippedLocked)
    (h5 : ad.clearedFlags = ar.clearedFlags) :
    (reconcileRowStep { ctx with dryRun := true } ad row).moved =
      (reconcileRowStep { ctx with dryRun := false } ar row).moved ∧
    (reconcileRowStep { ctx with dryRun := true } ad row).deleteDetected =
      (reconcileRowStep { ctx with dryRun := false } ar row).deleteDetected ∧
    (reconcileRowStep { ctx with dryRun := true } ad row).deleteArchivedNow =
      (reconcileRowStep { ctx with dryRun := false } ar row).deleteArchivedNow ∧
    (reconcileRowStep { ctx with dryRun := true } ad row).skippedLocked =
      (reconcileRowStep { ctx with dryRun := false } ar row).skippedLocked ∧
    (reconcileRowStep { ctx with dryRun := true } ad row).clearedFlags =
      (reconcileRowStep { ctx with dryRun := false } ar row).clearedFlags := by
  by_cases hc : row.raindropId ∈ ctx.raindropIds
  · by_cases hfl : row.deletedFlag = true <;>
      simp [reconcileRowStep, hc, hfl, h1, h2, h3, h4, h5]
  · by_cases hex : ((ctx.detailOf row.raindropId).rdExists &&
        !(ctx.detailOf row.raindropId).removed) = true
    · by_cases hl : row.locked = true
      · simp [reconcileRowStep, hc, hex, hl, h1, h2, h3, h4, h5]
      · have hl2 : row.locked = false := by simpa using hl
        by_cases hfl : row.deletedFlag = true <;>
          simp [reconcileRowStep, hc, hex, hl2, hfl, h1, h2, h3, h4, h5]
    · by_cases hdet : (!row.deletedFlag || row.deleteDetectedAt == none) = true
      · simp [reconcileRowStep, hc, hex, hdet, h1, h2, h3, h4, h5]
      · by_cases hg : hoursSinceGE row.deleteDetectedAt ctx.now
            ctx.graceHours = true
        · by_cases hm : (ctx.deleteMode == "archive" && !row.locked) = true
          · simp [reconcileRowStep, hc, hex, hdet, hg, hm, h1, h2, h3, h4, h5]
          · simp [reconcileRowStep, hc, hex, hdet, hg, hm, h1, h2, h3, h4, h5]
        · simp [reconcileRowStep, hc, hex, hdet, hg, h1, h2, h3, h4, h5]

theorem reconcile_fold_parity (ctx : RecCtx) :
    ∀ (rows : List NotionRow) (ad ar : RecAcc),
      ad.moved = ar.moved → ad.deleteDetected = ar.deleteDetected →
      ad.deleteArchivedNow = ar.deleteArchivedNow →
      ad.skippedLocked = ar.skippedLocked → ad.clearedFlags = ar.clearedFlags →
      (rows.foldl (reconcileRowStep { ctx with dryRun := true }) ad).moved =
        (rows.foldl (reconcileRowStep { ctx with dryRun := false }) ar).moved ∧
      (rows.foldl (reconcileRowStep { ctx with dryRun := true })
          ad).deleteDetected =
        (rows.foldl (reconcileRowStep { ctx with dryRun := false })
          ar).deleteDetected ∧
      (rows.foldl (reconcileRowStep { ctx with dryRun := true })
          ad).deleteArchivedNow =
        (rows.foldl (reconcileRowStep { ctx with dryRun := false })
          ar).deleteArchivedNow ∧
      (rows.foldl (reconcileRowStep { ctx with dryRun := true })
          ad).skippedLocked =
        (rows.foldl (reconcileRowStep { ctx with dryRun := false })
          ar).skippedLocked ∧
      (rows.foldl (reconcileRowStep { ctx with dryRun := true })
          ad).clearedFlags =
        (rows.foldl (reconcileRowStep { ctx with dryRun := false })
          ar).clearedFlags ∧
      (rows.foldl (reconcileRowStep { ctx with dryRun := true }) ad).db =
        ad.db := by
  intro rows
  induction rows with
  | nil => exact fun ad ar h1 h2 h3 h4 h5 => ⟨h1, h2, h3, h4, h5, rfl⟩
  | cons r rs ih =>
    intro ad ar h1 h2 h3 h4 h5
    obtain ⟨g1, g2, g3, g4, g5⟩ :=
      reconcileRowStep_parity ctx r ad ar h1 h2 h3 h4 h5
    obtain ⟨k1, k2, k3, k4, k5, k6⟩ :=
      ih (reconcileRowStep { ctx with dryRun := true } ad r)
        (reconcileRowStep { ctx with dryRun := false } ar r) g1 g2 g3 g4 g5
    exact ⟨k1, k2, k3, k4, k5,
      k6.trans (reconcileRowStep_dry_db { ctx with dryRun := true } rfl ad r)⟩

/-- C8.  On identical input state, the dry-run and real-run executions
of the incremental sync and of the reconciliation produce identical
classifications — the dry preview lists equal the real write lists and
all skip/moved/delete/cleared lists coincide — and the dry runs leave
the Destination database untouched. -/
theorem dry_run_parity (cands : List RaindropItem) (db0 : List NotionPage)
    (coll : RaindropItem → Option String) (now : Int) (ctx : RecCtx) :
    (runUpsertLoop cands db0 coll true now).toCreatePreview =
      (runUpsertLoop cands db0 coll false now).createdIds ∧
    (runUpsertLoop cands db0 coll true now).toUpdatePreview =
      (runUpsertLoop cands db0 coll false now).updatedIds ∧
    (runUpsertLoop cands db0 coll true now).skippedLocked =
      (runUpsertLoop cands db0 coll false now).skippedLocked ∧
    (runUpsertLoop cands db0 coll true now).alreadyExists =
      (runUpsertLoop cands db0 coll false now).alreadyExists ∧
    (runUpsertLoop cands db0 coll true now).db = db0 ∧
    (reconcileRun { ctx with dryRun := true } db0).moved =
      (reconcileRun { ctx with dryRun := false } db0).moved ∧
    (reconcileRun { ctx with dryRun := true } db0).deleteDetected =
      (reconcileRun { ctx with dryRun := false } db0).deleteDetected ∧
    (reconcileRun { ctx with dryRun := true } db0).deleteArchivedNow =
      (reconcileRun { ctx with dryRun := false } db0).deleteArchivedNow ∧
    (reconcileRun { ctx with dryRun := true } db0).skippedLocked =
      (reconcileRun { ctx with dryRun := false } db0).skippedLocked ∧
    (reconcileRun { ctx with dryRun := true } db0).clearedFlags =
      (reconcileRun { ctx with dryRun := false } db0).clearedFlags ∧
    (reconcileRun { ctx with dryRun := true } db0).db = db0 := by
  obtain ⟨s1, s2, s3, s4, s5⟩ := sync_fold_parity
    (fun id => (dbFind db0 id).map toFound) coll now cands
    ⟨db0, 0, 0, [], [], [], [], [], []⟩ ⟨db0, 0, 0, [], [], [], [], [], []⟩
    rfl rfl rfl rfl
  obtain ⟨r1, r2, r3, r4, r5, r6⟩ := reconcile_fold_parity ctx
    (listAllNotionRows db0) ⟨db0, [], [], [], [], []⟩
    ⟨db0, [], [], [], [], []⟩ rfl rfl rfl rfl rfl
  exact ⟨s1, s2, s3, s4, s5, r1, r2, r3, r4, r5, r6⟩

/-! ## Claim C9: idempotency of the incremental sync -/

/-- The largest page id in a database (`freshPageId db = maxPid db + 1`). -/
def maxPid (db : List NotionPage) : Nat :=
  (db.map (·.pageId)).foldr max 0

theorem maxPid_mem_le {db : List NotionPage} {q : NotionPage} (h : q ∈ db) :
    q.pageId ≤ maxPid db := by
  induction db with
  | nil => cases h
  | cons x l ih =>
    rcases List.mem_cons.mp h with rfl | h'
    · exact Nat.le_max_left _ _
    · exact (ih h').trans (Nat.le_max_right _ _)

theorem freshPageId_gt {db : List NotionPage} {q : NotionPage} (h : q ∈ db) :
    q.pageId < freshPageId db :=
  Nat.lt_succ_of_le (maxPid_mem_le h)

/-- A page write that keeps page ids keeps the page-id column. -/
theorem dbUpdate_map_pageId (db : List NotionPage) (pid : Nat)
    (f : NotionPage → NotionPage) (hf : ∀ q, (f q).pageId = q.pageId) :
    (dbUpdate db pid f).map (·.pageId) = db.map (·.pageId) := by
  simp only [dbUpdate, List.map_map]
  congr 1
  funext q
  by_cases h : q.pageId = pid <;> simp [h, hf q]

/-- Looking up by identifier through a page write whose transform keeps
the archived state and the identifier. -/
theorem dbFind_dbUpdate (db : List NotionPage) (pid : Nat)
    (f : NotionPage → NotionPage)
    (hfa : ∀ q, (f q).archived = q.archived)
    (hfr : ∀ q, (f q).raindropId = q.raindropId) (id : Nat) :
    dbFind (dbUpdate db pid f) id =
      (dbFind db id).map (fun q => if q.pageId == pid then f q else q) := by
  simp only [dbFind, dbUpdate, List.find?_map]
  have hcong : ((fun p => !p.archived && p.raindropId == id) ∘
      (fun q => if q.pageId == pid then f q else q)) =
      (fun p => !p.archived && p.raindropId == id) := by
    funext q
    by_cases h : q.pageId = pid <;> simp [h, hfa q, hfr q, Function.comp]
  rw [hcong]

theorem dbFind_append_single (db : List NotionPage) (x : NotionPage)
    (id : Nat) :
    dbFind (db ++ [x]) id = (dbFind db id).or (dbFind [x] id) := by
  simp [dbFind, List.find?_append]

/-- A candidate is up to date in a database when its row exists and is
locked or at least as new as the item's comparison key. -/
def UpToDate (db : List NotionPage) (it : RaindropItem) : Prop :=
  ∃ q, dbFind db it.id = some q ∧
    (q.locked = true ∨
      newerThan (some (itemLast it)) q.raindropLastUpdate = false)

/-- A decision step on an up-to-date candidate performs no create and no
update. -/
theorem syncStep_uptodate_noop (db1 : List NotionPage)
    (coll : RaindropItem → Option String) (now : Int) (acc : SyncAcc)
    (it : RaindropItem) (h : UpToDate db1 it) :
    (syncStep (fun id => (dbFind db1 id).map toFound) coll false now
        acc it).createdIds = acc.createdIds ∧
    (syncStep (fun id => (dbFind db1 id).map toFound) coll false now
        acc it).updatedIds = acc.updatedIds ∧
    (syncStep (fun id => (dbFind db1 id).map toFound) coll false now
        acc it).created = acc.created ∧
    (syncStep (fun id => (dbFind db1 id).map toFound) coll false now
        acc it).updated = acc.updated := by
  obtain ⟨q, hq, hcase⟩ := h
  simp only [syncStep, hq, Option.map_some']
  by_cases hl : q.locked = true
  · simp [toFound, hl]
  · have hl2 : q.locked = false := by simpa using hl
    rcases hcase with hlq | hn
    · exact absurd hlq hl
    · simp [toFound, hl2, hn]

/-- The decision loop over a list of up-to-date candidates performs no
create and no update. -/
theorem run2_no_writes (db1 : List NotionPage)
    (coll : RaindropItem → Option String) (now : Int) :
    ∀ (l : List RaindropItem) (acc : SyncAcc),
      (∀ it ∈ l, UpToDate db1 it) →
      (l.foldl (syncStep (fun id => (dbFind db1 id).map toFound) coll false
          now) acc).createdIds = acc.createdIds ∧
      (l.foldl (syncStep (fun id => (dbFind db1 id).map toFound) coll false
          now) acc).updatedIds = acc.updatedIds ∧
      (l.foldl (syncStep (fun id => (dbFind db1 id).map toFound) coll false
          now) acc).created = acc.created ∧
      (l.foldl (syncStep (fun id => (dbFind db1 id).map toFound) coll false
          now) acc).updated = acc.updated := by
  intro l
  induction l with
  | nil => exact fun acc _ => ⟨rfl, rfl, rfl, rfl⟩
  | cons a l ih =>
    intro acc h
    obtain ⟨s1, s2, s3, s4⟩ := syncStep_uptodate_noop db1 coll now acc a
      (h a (List.mem_cons_self a l))
    obtain ⟨k1, k2, k3, k4⟩ := ih _ (fun it hit => h it
      (List.mem_cons_of_mem a hit))
    exact ⟨k1.trans s1, k2.trans s2, k3.trans s3, k4.trans s4⟩

theorem dbFind_props {db : List NotionPage} {id : Nat} {q : NotionPage}
    (h : dbFind db id = some q) :
    q ∈ db ∧ q.archived = false ∧ q.raindropId = id := by
  have hm := List.mem_of_find?_eq_some h
  have hp := List.find?_some h
  simp only [Bool.and_eq_true, Bool.not_eq_true', beq_iff_eq] at hp
  exact ⟨hm, hp.1, hp.2⟩

theorem newerThan_self (t : Int) : newerThan (some t) (some t) = false := by
  simp [newerThan]

/-- After a real first run of the decision loop over candidates with
pairwise-distinct identifiers (on a database with pairwise-distinct page
ids), every processed candidate is up to date in the resulting database:
creates store the item's comparison key, updates bump the stored key to
it, and skips imply the stored state was already locked or as new. -/
theorem run1_fold_uptodate (db0 : List NotionPage)
    (hnd0 : (db0.map (·.pageId)).Nodup)
    (coll : RaindropItem → Option String) (now : Int) :
    ∀ (l : List RaindropItem) (acc : SyncAcc),
      ((l.map (·.id)).Nodup) →
      (∀ q ∈ acc.db, ∀ q0 ∈ db0, q.pageId = q0.pageId →
        q.raindropId = q0.raindropId) →
      (∀ q0 ∈ db0, q0.pageId ∈ acc.db.map (·.pageId)) →
      (∀ it ∈ l, dbFind acc.db it.id = dbFind db0 it.id) →
      (∀ it ∈ l, UpToDate
        (l.foldl (syncStep (fun id => (dbFind db0 id).map toFound) coll
          false now) acc).db it) ∧
      (∀ it : RaindropItem, it.id ∉ l.map (·.id) → UpToDate acc.db it →
        UpToDate (l.foldl (syncStep (fun id => (dbFind db0 id).map toFound)
          coll false now) acc).db it) := by
  intro l
  induction l with
  | nil =>
    intro acc _ _ _ _
    exact ⟨fun it h => absurd h (List.not_mem_nil it), fun it _ h => h⟩
  | cons a rest ih =>
    intro acc hnd hI1 hI2 hI3
    rw [List.map_cons, List.nodup_cons] at hnd
    obtain ⟨hnda, hndr⟩ := hnd
    have hne_rest : ∀ it ∈ rest, it.id ≠ a.id := by
      intro it hit heq
      exact hnda (heq ▸ List.mem_map_of_mem (·.id) hit)
    rw [List.foldl_cons]
    -- analyse the step for candidate a
    cases hfind : dbFind db0 a.id with
    | none =>
      -- create branch
      have hd' : (syncStep (fun id => (dbFind db0 id).map toFound) coll
          false now acc a).db =
          acc.db ++ [createFromRaindrop a (coll a) (freshPageId acc.db)
            now] := by
        simp [syncStep, hfind]
      have hfacc : dbFind acc.db a.id = none :=
        (hI3 a (List.mem_cons_self a rest)).trans hfind
      have hI1' : ∀ q ∈ (syncStep (fun id => (dbFind db0 id).map toFound)
          coll false now acc a).db, ∀ q0 ∈ db0, q.pageId = q0.pageId →
          q.raindropId = q0.raindropId := by
        rw [hd']
        intro q hq q0 hq0 hpid
        rcases List.mem_append.mp hq with hq | hq
        · exact hI1 q hq q0 hq0 hpid
        · obtain ⟨qq, hqq, hqqe⟩ := List.mem_map.mp (hI2 q0 hq0)
          have hlt : qq.pageId < freshPageId acc.db := freshPageId_gt hqq
          have hq' : q = createFromRaindrop a (coll a) (freshPageId acc.db)
              now := List.mem_singleton.mp hq
          rw [hq'] at hpid
          simp only [createFromRaindrop] at hpid
          omega
      have hI2' : ∀ q0 ∈ db0, q0.pageId ∈
          ((syncStep (fun id => (dbFind db0 id).map toFound) coll false now
            acc a).db.map (·.pageId)) := by
        rw [hd']
        intro q0 hq0
        rw [List.map_append]
        exact List.mem_append_left _ (hI2 q0 hq0)
      have hI3' : ∀ it ∈ rest, dbFind (syncStep (fun id =>
          (dbFind db0 id).map toFound) coll false now acc a).db it.id =
          dbFind db0 it.id := by
        rw [hd']
        intro it hit
        rw [dbFind_append_single]
        have hbe : (a.id == it.id) = false :=
          beq_eq_false_iff_ne.mpr (Ne.symm (hne_rest it hit))
        have hnewfind : dbFind [createFromRaindrop a (coll a)
            (freshPageId acc.db) now] it.id = none := by
          simp [dbFind, List.find?, createFromRaindrop, hbe]
        cases hcase : dbFind acc.db it.id with
        | none =>
          rw [hnewfind]
          exact ((hI3 it (List.mem_cons_of_mem a hit)).symm.trans
            hcase).symm
        | some q =>
          rw [← hI3 it (List.mem_cons_of_mem a hit), hcase]
          rfl
      have hUpA : UpToDate (syncStep (fun id =>
          (dbFind db0 id).map toFound) coll false now acc a).db a := by
        rw [hd']
        refine ⟨createFromRaindrop a (coll a) (freshPageId acc.db) now,
          ?_, Or.inr (newerThan_self (itemLast a))⟩
        rw [dbFind_append_single, hfacc]
        simp [dbFind, List.find?, createFromRaindrop]
      have hPres : ∀ it : RaindropItem, it.id ≠ a.id →
          UpToDate acc.db it → UpToDate (syncStep (fun id =>
            (dbFind db0 id).map toFound) coll false now acc a).db it := by
        rw [hd']
        rintro it hneq ⟨q, hq, hprop⟩
        refine ⟨q, ?_, hprop⟩
        rw [dbFind_append_single, hq]
        rfl
      obtain ⟨ihA, ihB⟩ := ih (syncStep (fun id =>
        (dbFind db0 id).map toFound) coll false now acc a) hndr hI1' hI2'
        hI3'
      constructor
      · intro it hit
        rcases List.mem_cons.mp hit with rfl | hit'
        · exact ihB it hnda hUpA
        · exact ihA it hit'
      · intro it hit hup
        rw [List.map_cons, List.mem_cons] at hit
        push_neg at hit
        exact ihB it hit.2 (hPres it hit.1 hup)
    | some qk =>
      obtain ⟨hqkmem, hqkarch, hqkrid⟩ := dbFind_props hfind
      have hfacc : dbFind acc.db a.id = some qk :=
        (hI3 a (List.mem_cons_self a rest)).trans hfind
      by_cases hlk : qk.locked = true
      · -- locked: no write
        have hd' : (syncStep (fun id => (dbFind db0 id).map toFound) coll
            false now acc a).db = acc.db := by
          simp [syncStep, hfind, toFound, hlk]
        have hUpA : UpToDate (syncStep (fun id =>
            (dbFind db0 id).map toFound) coll false now acc a).db a := by
          rw [hd']
          exact ⟨qk, hfacc, Or.inl hlk⟩
        obtain ⟨ihA, ihB⟩ := ih _ hndr (hd' ▸ hI1) (hd' ▸ hI2)
          (fun it hit => hd' ▸ hI3 it (List.mem_cons_of_mem a hit))
        constructor
        · intro it hit
          rcases List.mem_cons.mp hit with rfl | hit'
          · exact ihB it hnda hUpA
          · exact ihA it hit'
        · intro it hit hup
          rw [List.map_cons, List.mem_cons] at hit
          push_neg at hit
          exact ihB it hit.2 (hd' ▸ hup)
      · have hlk2 : qk.locked = false := by simpa using hlk
        by_cases hn : newerThan (some (itemLast a)) qk.raindropLastUpdate =
            true
        · -- update branch
          have hd' : (syncStep (fun id => (dbFind db0 id).map toFound) coll
              false now acc a).db = dbUpdate acc.db qk.pageId
                (fun p => updateFromRaindrop p a (coll a) now) := by
            simp [syncStep, hfind, toFound, hlk2, hn]
          have hmap : ∀ id, dbFind (dbUpdate acc.db qk.pageId
              (fun p => updateFromRaindrop p a (coll a) now)) id =
              (dbFind acc.db id).map (fun q => if q.pageId == qk.pageId
                then updateFromRaindrop q a (coll a) now else q) :=
            dbFind_dbUpdate acc.db qk.pageId _ (fun q => rfl) (fun q => rfl)
          have hI1' : ∀ q ∈ (syncStep (fun id =>
              (dbFind db0 id).map toFound) coll false now acc a).db,
              ∀ q0 ∈ db0, q.pageId = q0.pageId →
              q.raindropId = q0.raindropId := by
            rw [hd']
            intro q hq q0 hq0 hpid
            obtain ⟨qq, hqq, hqqe⟩ := List.mem_map.mp hq
            by_cases hpp : qq.pageId == qk.pageId
            · rw [← hqqe] at hpid ⊢
              simp only [hpp, if_pos] at hpid ⊢
              exact hI1 qq hqq q0 hq0 hpid
            · rw [← hqqe] at hpid ⊢
              simp only [hpp] at hpid ⊢
              simp only [Bool.false_eq_true, if_false] at hpid ⊢
              exact hI1 qq hqq q0 hq0 hpid
          have hI2' : ∀ q0 ∈ db0, q0.pageId ∈
              ((syncStep (fun id => (dbFind db0 id).map toFound) coll false
                now acc a).db.map (·.pageId)) := by
            have hmp := dbUpdate_map_pageId acc.db qk.pageId
              (fun p => updateFromRaindrop p a (coll a) now) (fun q => rfl)
            rw [hd']
            intro q0 hq0
            rw [hmp]
            exact hI2 q0 hq0
          have hI3' : ∀ it ∈ rest, dbFind (syncStep (fun id =>
              (dbFind db0 id).map toFound) coll false now acc a).db it.id =
              dbFind db0 it.id := by
            rw [hd']
            intro it hit
            rw [hmap, hI3 it (List.mem_cons_of_mem a hit)]
            cases hfo : dbFind db0 it.id with
            | none => rfl
            | some q' =>
              obtain ⟨hq'mem, _, hq'rid⟩ := dbFind_props hfo
              have hnp : ¬ (q'.pageId == qk.pageId) = true := by
                intro hb
                have heqp : q'.pageId = qk.pageId := by simpa using hb
                have : q' = qk :=
                  List.inj_on_of_nodup_map hnd0 hq'mem hqkmem heqp
                rw [this] at hq'rid
                exact hne_rest it hit (hq'rid.symm.trans hqkrid)
              have hnep : q'.pageId ≠ qk.pageId := by simpa using hnp
              simp [hnep]
          have hUpA : UpToDate (syncStep (fun id =>
              (dbFind db0 id).map toFound) coll false now acc a).db a := by
            rw [hd']
            refine ⟨updateFromRaindrop qk a (coll a) now, ?_,
              Or.inr (newerThan_self (itemLast a))⟩
            rw [hmap, hfacc]
            simp
          have hPres : ∀ it : RaindropItem, it.id ≠ a.id →
              UpToDate acc.db it → UpToDate (syncStep (fun id =>
                (dbFind db0 id).map toFound) coll false now acc a).db it := by
            rw [hd']
            rintro it hneq ⟨q, hq, hprop⟩
            obtain ⟨hqmem, _, hqrid⟩ := dbFind_props hq
            have hnp : ¬ (q.pageId == qk.pageId) = true := by
              intro hb
              have heqp : q.pageId = qk.pageId := by simpa using hb
              have := hI1 q hqmem qk hqkmem heqp
              rw [hqrid, hqkrid] at this
              exact hneq this
            have hnep : q.pageId ≠ qk.pageId := by simpa using hnp
            refine ⟨q, ?_, hprop⟩
            rw [hmap, hq]
            simp [hnep]
          obtain ⟨ihA, ihB⟩ := ih _ hndr hI1' hI2' hI3'
          constructor
          · intro it hit
            rcases List.mem_cons.mp hit with rfl | hit'
            · exact ihB it hnda hUpA
            · exact ihA it hit'
          · intro it hit hup
            rw [List.map_cons, List.mem_cons] at hit
            push_neg at hit
            exact ihB it hit.2 (hPres it hit.1 hup)
        · -- already up to date: no write
          have hn2 : newerThan (some (itemLast a)) qk.raindropLastUpdate =
              false := by simpa using hn
          have hd' : (syncStep (fun id => (dbFind db0 id).map toFound) coll
              false now acc a).db = acc.db := by
            simp [syncStep, hfind, toFound, hlk2, hn2]
          have hUpA : UpToDate (syncStep (fun id =>
              (dbFind db0 id).map toFound) coll false now acc a).db a := by
            rw [hd']
            exact ⟨qk, hfacc, Or.inr hn2⟩
          obtain ⟨ihA, ihB⟩ := ih _ hndr (hd' ▸ hI1) (hd' ▸ hI2)
            (fun it hit => hd' ▸ hI3 it (List.mem_cons_of_mem a hit))
          constructor
          · intro it hit
            rcases List.mem_cons.mp hit with rfl | hit'
            · exact ihB it hnda hUpA
            · exact ihA it hit'
          · intro it hit hup
            rw [List.map_cons, List.mem_cons] at hit
            push_neg at hit
            exact ihB it hit.2 (hd' ▸ hup)

/-- C9 (amended).  If every candidate of the second run was already a
candidate of the first (true in particular when the candidate set is
stable and not truncated by the hard cap), then the second real run of
the decision loop performs zero creates and zero updates: a create
stores the item's comparison key, an update bumps the stored key, and a
skip means the stored state was already locked or at least as new. -/
theorem second_run_zero_writes (cands1 cands2 : List RaindropItem)
    (db0 : List NotionPage) (coll1 coll2 : RaindropItem → Option String)
    (now1 now2 : Int) (hnd1 : (cands1.map (·.id)).Nodup)
    (hnd0 : (db0.map (·.pageId)).Nodup)
    (hsub : ∀ it ∈ cands2, it ∈ cands1) :
    (runUpsertLoop cands2 (runUpsertLoop cands1 db0 coll1 false now1).db
      coll2 false now2).created = 0 ∧
    (runUpsertLoop cands2 (runUpsertLoop cands1 db0 coll1 false now1).db
      coll2 false now2).updated = 0 ∧
    (runUpsertLoop cands2 (runUpsertLoop cands1 db0 coll1 false now1).db
      coll2 false now2).createdIds = [] ∧
    (runUpsertLoop cands2 (runUpsertLoop cands1 db0 coll1 false now1).db
      coll2 false now2).updatedIds = [] := by
  have hup : ∀ it ∈ cands1,
      UpToDate (runUpsertLoop cands1 db0 coll1 false now1).db it := by
    have h := run1_fold_uptodate db0 hnd0 coll1 now1 cands1
      ⟨db0, 0, 0, [], [], [], [], [], []⟩ hnd1
      (fun q hq q0 hq0 hpid => by
        rw [List.inj_on_of_nodup_map hnd0 hq hq0 hpid])
      (fun q0 hq0 => List.mem_map_of_mem _ hq0)
      (fun it _ => rfl)
    exact h.1
  obtain ⟨z1, z2, z3, z4⟩ := run2_no_writes
    (runUpsertLoop cands1 db0 coll1 false now1).db coll2 now2 cands2
    ⟨(runUpsertLoop cands1 db0 coll1 false now1).db, 0, 0, [], [], [], [],
      [], []⟩ (fun it h => hup it (hsub it h))
  exact ⟨z3, z4, z1, z2⟩

/-- Witness for `second_run_zero_writes` at a concrete input. -/
theorem second_run_zero_writes_witness :
    (runUpsertLoop [⟨3, "t", "u", "", "", [], 5, none, none, none, none⟩]
      (runUpsertLoop [⟨3, "t", "u", "", "", [], 5, none, none, none,
        none⟩] [] (fun _ => none) false 0).db
      (fun _ => none) false 1).created = 0 := by
  have h := second_run_zero_writes
    [⟨3, "t", "u", "", "", [], 5, none, none, none, none⟩]
    [⟨3, "t", "u", "", "", [], 5, none, none, none, none⟩]
    [] (fun _ => none) (fun _ => none) 0 1 (by decide) (by decide)
    (fun it h => h)
  exact h.1

/-! ## Claims C2 and C3: the default hard cap and window completeness -/

/-- An in-window item created on day 3 (no last-modified). -/
def itemW (i : Nat) : RaindropItem :=
  ⟨i, "w", "u", "", "", [], 259200000 + i * 1000, none, none, none, none⟩

/-- A source of 51 items, all created inside the run's window, sorted by
creation time descending. -/
def srcC2 : List RaindropItem := (List.range 51).map (fun j => itemW (51 - j))

set_option maxRecDepth 10000 in
/-- C2 fails on the code: with no `limit` query parameter at all,
`toIntInRange` falls back to its default 50, so `limitQP` is always
truthy; on a full first page the `debug-limit` stop rule (stop rule (d))
fires even though the caller supplied no cap, and the unioned candidate
list (51 entries reachable through pass B) is truncated to 50. -/
theorem default_cap_fires_without_limit :
    toIntInRange none 50 1 500 = 50 ∧
    (syncRun srcC2 [] none false 345600000 {} (fun _ => none)).limitQP =
      50 ∧
    (syncRun srcC2 [] none false 345600000 {}
      (fun _ => none)).passA.stopReason = some "debug-limit" ∧
    (syncRun srcC2 [] none false 345600000 {} (fun _ => none)).passB.length
      = 51 ∧
    (syncRun srcC2 [] none false 345600000 {}
      (fun _ => none)).candidateList.length = 50 := by
  exact ⟨rfl, rfl, rfl, rfl, rfl⟩

set_option maxRecDepth 10000 in
/-- C3 fails on the code: item 1 is a Source item created inside the
window (`since ≤ created`) and is present in the pass-B candidate set,
yet the default hard cap truncates it out of the candidate list, so it
is never evaluated by the upsert decision loop. -/
theorem window_completeness_cex :
    itemW 1 ∈ srcC2 ∧
    (syncRun srcC2 [] none false 345600000 {} (fun _ => none)).since ≤
      (itemW 1).created ∧
    (syncRun srcC2 [] none false 345600000 {} (fun _ => none)).passB.any
      (fun kv => kv.1 == 1) = true ∧
    ((syncRun srcC2 [] none false 345600000 {}
      (fun _ => none)).candidateList.map (·.id)).contains 1 = false := by
  refine ⟨?_, ?_, ?_, ?_⟩
  · decide
  · decide
  · rfl
  · rfl

/-- A day-3 item used by the two-run scenario. -/
def itemA (j : Nat) : RaindropItem :=
  ⟨100 + j, "a", "u", "", "", [], 259200000 + j * 1000, none, none, none,
    none⟩

/-- An item created just inside the first run's window edge (and outside
the second run's). -/
def itemX : RaindropItem :=
  ⟨55, "x", "u", "", "", [], 135620000, none, none, none, none⟩

/-- An old item whose last-modified date keeps it in the pass-B search
of both runs. -/
def itemY : RaindropItem :=
  ⟨7, "y", "u", "", "", [], 100000000, some 259300000, none, none, none⟩

/-- A source of 51 items, sorted by creation time descending, that the
two-run scenario leaves unchanged between the runs. -/
def srcC9 : List RaindropItem :=
  ((List.range 49).map (fun j => itemA (49 - j))) ++ [itemX, itemY]

set_option maxRecDepth 10000 in
/-- C9 fails at the pipeline level: with an unchanged Source of 51
items and no limit parameter, the first run's default cap truncates item
7 out of the candidate list (it creates the 50 others); five minutes
later the window edge has moved past item 55, item 7 fits under the
cap, and the second run performs a create — not zero. -/
theorem sync_twice_second_run_creates_cex :
    (syncRun srcC9 [] none false 309200000 {} (fun _ => none)).loop.created
      = 50 ∧
    (syncRun srcC9
      (syncRun srcC9 [] none false 309200000 {} (fun _ => none)).loop.db
      none false 309500000 {} (fun _ => none)).loop.created = 1 ∧
    (syncRun srcC9
      (syncRun srcC9 [] none false 309200000 {} (fun _ => none)).loop.db
      none false 309500000 {} (fun _ => none)).loop.createdIds = [7] := by
  refine ⟨?_, ?_, ?_⟩ <;> rfl

end RaindropNotionSync
